import Mathlib

/-!
Verification of the EKHBC (Ekehi Network) node against its specification.

The definitions below are a shallow embedding of `src/node/server.js` and of
the RPC server bundled with it.  Helper modules that the node imports
(`Transaction.isValid`, `verifyBlock`, `changeState`, `updateDifficulty`) are
not part of the handlers under study; the handlers treat them as black boxes,
so here they appear as function parameters.  JavaScript BigInt values are
embedded as `Nat` (all amounts handled by the node are non-negative) and the
balance projection, which can go below zero, is computed in `Int`.
-/

namespace EKHBC

/-- An account record of the state store; only the balance is consulted by the
gossip handlers embedded here. -/
structure Account where
  balance : Nat
deriving Repr, DecidableEq

/-- A transaction.  `contractGas` embeds `additionalData.contractGas`, absent
when the field is missing.  The `sender` field embeds the derived value
`SHA256(Transaction.getPubKey(tx))`, which is a pure function of the
transaction, precomputed here once and for all. -/
structure Transaction where
  recipient : String
  amount : Nat
  gas : Nat
  contractGas : Option Nat
  timestamp : Nat
  sender : String
deriving Repr, DecidableEq

/-- The value `BigInt(tx.additionalData.contractGas || 0)`. -/
def Transaction.cg (t : Transaction) : Nat := t.contractGas.getD 0

/-- A block, as constructed and gossiped by the node. -/
structure Block where
  blockNumber : Nat
  timestamp : Nat
  transactions : List Transaction
  difficulty : Nat
  parentHash : String
  nonce : Nat
  hash : String
deriving Repr, DecidableEq

/-- The in-memory `chainInfo` object of `server.js`. -/
structure ChainInfo where
  transactionPool : List Transaction
  latestBlock : Block
  latestSyncBlock : Option Block
  difficulty : Nat
deriving Repr, DecidableEq

/-- A Level store is embedded as an association list; `put` prepends and
`get` takes the first match, so later writes shadow earlier ones. -/
def dbLookup {α : Type} (db : List (String × α)) (k : String) : Option α :=
  (db.find? (fun e => e.1 == k)).map Prod.snd

/-- `db.put(k, v)` for the association-list store. -/
def dbPut {α : Type} (db : List (String × α)) (k : String) (v : α) :
    List (String × α) :=
  (k, v) :: db

theorem dbLookup_dbPut {α : Type} (db : List (String × α)) (k : String) (v : α) :
    dbLookup (dbPut db k v) k = some v := by
  simp [dbLookup, dbPut, List.find?]

/-- Result of the CREATE_TRANSACTION gossip handler: the updated pool and
whether the transaction was re-broadcast to the open peers. -/
structure CreateTxResult where
  pool : List Transaction
  broadcast : Bool
deriving Repr, DecidableEq

/-- The CREATE_TRANSACTION handler of `server.js` (lines 125-176).
`isValid` abstracts `Transaction.isValid` applied to the current state store.
The handler checks, in order: the node is not syncing; the transaction is
valid; the sender address is among the state-store keys (the `get` on the
following line is merged into the same `match`, since on an association list
the key check succeeds exactly when the lookup does); the projected balance
is non-negative; and no pooled transaction of the same sender reuses the
timestamp.  Note that the fold over the pool subtracts
`transaction.additionalData.contractGas` (the incoming transaction) and not
`tx.additionalData.contractGas` (the pooled one), exactly as the source
does. -/
def createTransactionHandler
    (isValid : Transaction → Bool)
    (enableChainRequest : Bool)
    (stateDB : List (String × Account))
    (pool : List Transaction)
    (transaction : Transaction) : CreateTxResult :=
  if enableChainRequest then ⟨pool, false⟩
  else if ¬ isValid transaction then ⟨pool, false⟩
  else
    match dbLookup stateDB transaction.sender with
    | none => ⟨pool, false⟩
    | some dataFromSender =>
      let balance : Int :=
        pool.foldl
          (fun bal tx =>
            if tx.sender == transaction.sender then
              bal - ((tx.amount : Int) + (tx.gas : Int) + (transaction.cg : Int))
            else bal)
          ((dataFromSender.balance : Int) - (transaction.amount : Int)
            - (transaction.gas : Int) - (transaction.cg : Int))
      if 0 ≤ balance ∧
          ((pool.filter (fun tx => tx.sender == transaction.sender)).any
            (fun tx => tx.timestamp == transaction.timestamp)) = false then
        ⟨pool ++ [transaction], true⟩
      else ⟨pool, false⟩

/-- The projected balance exactly as the claim states it: the stored balance
minus the cost of the new transaction and minus, for every pooled transaction
of the same sender, that pooled transaction with ITS OWN contract gas. -/
def claimProjected (stateBal : Nat) (t : Transaction) (pool : List Transaction) : Int :=
  pool.foldl
    (fun bal tx =>
      if tx.sender == t.sender then
        bal - ((tx.amount : Int) + (tx.gas : Int) + (tx.cg : Int))
      else bal)
    ((stateBal : Int) - (t.amount : Int) - (t.gas : Int) - (t.cg : Int))

/-- A pooled transaction of sender `s` carrying 50 units of contract gas. -/
def c1PoolTx : Transaction :=
  { recipient := "r", amount := 50, gas := 0, contractGas := some 50,
    timestamp := 1, sender := "s" }

/-- An incoming transaction of the same sender with no contract gas. -/
def c1NewTx : Transaction :=
  { recipient := "r", amount := 50, gas := 0, contractGas := none,
    timestamp := 2, sender := "s" }

/-- The state store giving sender `s` a balance of 100. -/
def c1StateDB : List (String × Account) := [("s", ⟨100⟩)]

/-- Claim C1: the handler admits and re-broadcasts `c1NewTx` although the
projected balance of the claim is -50, because the fold over the pool uses
the contract gas of the incoming transaction (0) in place of the contract
gas of the pooled transaction (50).  The code diverges from both the claim
and its own comment that it behaves like `addTransaction`. -/
theorem c1_pool_contract_gas_bug :
    createTransactionHandler (fun _ => true) false c1StateDB [c1PoolTx] c1NewTx =
      ⟨[c1PoolTx, c1NewTx], true⟩ ∧
    claimProjected 100 c1NewTx [c1PoolTx] < 0 := by
  constructor
  · decide
  · decide

/-- Everything the NEW_BLOCK gossip handler can touch: the chain info, the two
stores, the blocks it re-broadcast, whether it killed the mining worker, and
the value of the mutable `ENABLE_CHAIN_REQUEST` variable afterwards. -/
structure NewBlockResult where
  chainInfo : ChainInfo
  blockDB : List (String × Block)
  stateDB : List (String × Account)
  broadcasts : List Block
  workerKilled : Bool
  enableChainRequest : Bool
deriving Repr, DecidableEq

/-- The NEW_BLOCK gossip handler of `server.js` (lines 69-123).  `verify`
abstracts `verifyBlock`, `updDiff` abstracts `updateDifficulty` (which reads
the incoming block, the chain info and the block store and yields the new
difficulty), `changeSt` abstracts `changeState`, and `isValid` abstracts
`Transaction.isValid` for the pool re-validation.  The handler proceeds only
when the parent hash of the incoming block differs from the parent hash of
the head block and the node is either not syncing or past the genesis. -/
def newBlockHandler
    (verify : Block → ChainInfo → List (String × Account) → Bool)
    (updDiff : Block → ChainInfo → List (String × Block) → Nat)
    (changeSt : Block → List (String × Account) → List (String × Account))
    (isValid : Transaction → List (String × Account) → Bool)
    (enableChainRequest enableMining : Bool)
    (currentSyncBlock : Nat)
    (ci : ChainInfo)
    (blockDB : List (String × Block))
    (stateDB : List (String × Account))
    (newBlock : Block) : NewBlockResult :=
  if newBlock.parentHash ≠ ci.latestBlock.parentHash ∧
      (enableChainRequest = false ∨ currentSyncBlock > 1) then
    if verify newBlock ci stateDB then
      let difficulty2 := updDiff newBlock ci blockDB
      let blockDB2 := dbPut blockDB (toString newBlock.blockNumber) newBlock
      let stateDB2 := changeSt newBlock stateDB
      let pool2 := ci.transactionPool.filter (fun tx => isValid tx stateDB2)
      { chainInfo := { transactionPool := pool2, latestBlock := newBlock,
                       latestSyncBlock := ci.latestSyncBlock,
                       difficulty := difficulty2 },
        blockDB := blockDB2, stateDB := stateDB2,
        broadcasts := [newBlock], workerKilled := enableMining,
        enableChainRequest := false }
    else
      ⟨ci, blockDB, stateDB, [], false, enableChainRequest⟩
  else
    ⟨ci, blockDB, stateDB, [], false, enableChainRequest⟩

/-- Claim C2: a NEW_BLOCK whose parent hash equals the parent hash of the
current head block is a no-op: nothing is stored, broadcast or killed, and
the chain info and the sync flag are untouched. -/
theorem c2_duplicate_block_noop
    (verify : Block → ChainInfo → List (String × Account) → Bool)
    (updDiff : Block → ChainInfo → List (String × Block) → Nat)
    (changeSt : Block → List (String × Account) → List (String × Account))
    (isValid : Transaction → List (String × Account) → Bool)
    (enableChainRequest enableMining : Bool)
    (currentSyncBlock : Nat)
    (ci : ChainInfo)
    (blockDB : List (String × Block))
    (stateDB : List (String × Account))
    (newBlock : Block)
    (h : newBlock.parentHash = ci.latestBlock.parentHash) :
    newBlockHandler verify updDiff changeSt isValid enableChainRequest
        enableMining currentSyncBlock ci blockDB stateDB newBlock =
      ⟨ci, blockDB, stateDB, [], false, enableChainRequest⟩ := by
  simp [newBlockHandler, h]

/-- A minimal concrete block used by the duplicate-block witness. -/
def c2Block : Block :=
  { blockNumber := 1, timestamp := 0, transactions := [], difficulty := 1,
    parentHash := "p", nonce := 0, hash := "h" }

/-- A chain info whose head has the same parent hash `p`. -/
def c2ChainInfo : ChainInfo :=
  { transactionPool := [], latestBlock := c2Block, latestSyncBlock := none,
    difficulty := 1 }

theorem c2_duplicate_block_noop_w :
    newBlockHandler (fun _ _ _ => true) (fun _ _ _ => 2)
        (fun _ s => s) (fun _ _ => true) false true 0
        c2ChainInfo [] [] c2Block =
      ⟨c2ChainInfo, [], [], [], false, false⟩ :=
  c2_duplicate_block_noop _ _ _ _ _ _ _ _ _ _ _ rfl

/-- The transaction-selection loop of `mine` in `server.js` (lines 339-350):
walk the pool in order with running totals of contract gas and of
gas-plus-contract-gas, and STOP (break) as soon as the running contract gas
plus the contract gas of the candidate reaches or exceeds the gas limit.
Returns the selected list together with the final two totals. -/
def collectTxs (limit : Nat) : List Transaction → Nat → Nat →
    List Transaction × Nat × Nat
  | [], totalContractGas, totalTxGas => ([], totalContractGas, totalTxGas)
  | tx :: rest, totalContractGas, totalTxGas =>
    if limit ≤ totalContractGas + tx.cg then ([], totalContractGas, totalTxGas)
    else
      let r := collectTxs limit rest (totalContractGas + tx.cg)
        (totalTxGas + tx.gas + tx.cg)
      (tx :: r.1, r.2)

/-- Sum of the `gas` fields of a list of transactions. -/
def sumGas : List Transaction → Nat
  | [] => 0
  | t :: r => t.gas + sumGas r

/-- Sum of the contract-gas fields of a list of transactions. -/
def sumCg : List Transaction → Nat
  | [] => 0
  | t :: r => t.cg + sumCg r

theorem collectTxs_poolOrder (limit : Nat) :
    ∀ (pool : List Transaction) (a b : Nat),
      ∃ rest, (collectTxs limit pool a b).1 ++ rest = pool := by
  intro pool
  induction pool with
  | nil => intro a b; exact ⟨[], rfl⟩
  | cons tx rest ih =>
    intro a b
    by_cases h : limit ≤ a + tx.cg
    · exact ⟨tx :: rest, by simp [collectTxs, h]⟩
    · obtain ⟨r2, hr2⟩ := ih (a + tx.cg) (b + tx.gas + tx.cg)
      exact ⟨r2, by simp [collectTxs, h, hr2]⟩

theorem collectTxs_cg_total (limit : Nat) :
    ∀ (pool : List Transaction) (a b : Nat),
      (collectTxs limit pool a b).2.1 = a + sumCg (collectTxs limit pool a b).1 := by
  intro pool
  induction pool with
  | nil => intro a b; simp [collectTxs, sumCg]
  | cons tx rest ih =>
    intro a b
    by_cases h : limit ≤ a + tx.cg
    · simp [collectTxs, h, sumCg]
    · have := ih (a + tx.cg) (b + tx.gas + tx.cg)
      simp only [collectTxs, if_neg h, sumCg]
      omega

theorem collectTxs_cg_lt (limit : Nat) :
    ∀ (pool : List Transaction) (a b : Nat), a < limit →
      (collectTxs limit pool a b).2.1 < limit := by
  intro pool
  induction pool with
  | nil => intro a b h; simpa [collectTxs] using h
  | cons tx rest ih =>
    intro a b h
    by_cases hc : limit ≤ a + tx.cg
    · simpa [collectTxs, hc] using h
    · have := ih (a + tx.cg) (b + tx.gas + tx.cg) (by omega)
      simpa [collectTxs, hc] using this

theorem collectTxs_txgas_total (limit : Nat) :
    ∀ (pool : List Transaction) (a b : Nat),
      (collectTxs limit pool a b).2.2 =
        b + sumGas (collectTxs limit pool a b).1
          + sumCg (collectTxs limit pool a b).1 := by
  intro pool
  induction pool with
  | nil => intro a b; simp [collectTxs, sumGas, sumCg]
  | cons tx rest ih =>
    intro a b
    by_cases h : limit ≤ a + tx.cg
    · simp [collectTxs, h, sumGas, sumCg]
    · have := ih (a + tx.cg) (b + tx.gas + tx.cg)
      simp only [collectTxs, if_neg h, sumGas, sumCg]
      omega

/-- A transaction whose contract gas alone equals a gas limit of 1000. -/
def c3Tx : Transaction :=
  { recipient := "r", amount := 0, gas := 0, contractGas := some 1000,
    timestamp := 7, sender := "s" }

/-- Claim C3 counterexample: with the limit at 1000, a candidate whose
cumulative contract gas would be exactly 1000 is NOT selected (the loop
breaks on greater-or-equal), contradicting the claim that a candidate
reaching the limit exactly is still selected. -/
theorem c3_exact_limit_counterexample :
    c3Tx ∉ (collectTxs 1000 [c3Tx] 0 0).1 ∧ Transaction.cg c3Tx + 0 = 1000 := by
  constructor
  · decide
  · decide

/-- Claim C3 as amended: the selection is a prefix of the pool, and for any
positive gas limit the total contract gas of the selected transactions stays
STRICTLY below the limit (a candidate that would reach the limit exactly is
rejected). -/
theorem c3_prefix_below_limit (limit : Nat) (pool : List Transaction)
    (h : 0 < limit) :
    (∃ rest, (collectTxs limit pool 0 0).1 ++ rest = pool) ∧
    sumCg (collectTxs limit pool 0 0).1 < limit := by
  refine ⟨collectTxs_poolOrder limit pool 0 0, ?_⟩
  have h1 := collectTxs_cg_total limit pool 0 0
  have h2 := collectTxs_cg_lt limit pool 0 0 h
  omega

theorem c3_prefix_below_limit_w :
    (∃ rest, (collectTxs 1000 [c3Tx] 0 0).1 ++ rest = [c3Tx]) ∧
    sumCg (collectTxs 1000 [c3Tx] 0 0).1 < 1000 :=
  c3_prefix_below_limit 1000 [c3Tx] (by decide)

/-- Modelled from the spec: the `Transaction` constructor and
`Transaction.sign` live in `src/core/transaction.js`, which is not among the
sources.  Per the spec, `new Transaction(recipient, amount)` builds a
transaction with the given recipient and amount, and signing with a key pair
attaches a signature from which `getPubKey` recovers the signer, so signing
with the MINT key makes the MINT address the sender.  The remaining fields
(gas, contract gas, timestamp) play no role in the claims about the
coinbase; the timestamp the constructor assigns is taken as a parameter. -/
def mintSigned (recipient : String) (amount : Nat) (mintAddress : String)
    (ts : Nat) : Transaction :=
  { recipient := recipient, amount := amount, gas := 0, contractGas := none,
    timestamp := ts, sender := mintAddress }

/-- The candidate block built by `mine` in `server.js` (lines 339-363):
select transactions from the pool, build the reward transaction paying
`BLOCK_REWARD + totalTxGas` to the hash of the miner public key, sign it
with the MINT key, and put it in front of the selected transactions.  The
nonce and hash fields are filled in later by the worker; their initial
values (from the `Block` constructor, not among the sources) are irrelevant
to the claims and fixed at zero and the empty string. -/
def mineCandidate (blockReward limit : Nat) (minerAddress mintAddress : String)
    (now rewardTs : Nat) (ci : ChainInfo) : Block :=
  let sel := collectTxs limit ci.transactionPool 0 0
  let rewardTransaction := mintSigned minerAddress (blockReward + sel.2.2)
    mintAddress rewardTs
  { blockNumber := ci.latestBlock.blockNumber + 1, timestamp := now,
    transactions := rewardTransaction :: sel.1, difficulty := ci.difficulty,
    parentHash := ci.latestBlock.hash, nonce := 0, hash := "" }

/-- Claim C4: in every candidate block, the transaction at index 0 is a
coinbase whose sender is the MINT address, whose recipient is the miner
address, and whose amount is exactly the block reward plus the sum of the
gas of the selected transactions plus the sum of their contract gas. -/
theorem c4_coinbase_reward (blockReward limit : Nat)
    (minerAddress mintAddress : String) (now rewardTs : Nat) (ci : ChainInfo) :
    ∃ cb,
      (mineCandidate blockReward limit minerAddress mintAddress now rewardTs
        ci).transactions.head? = some cb ∧
      cb.sender = mintAddress ∧
      cb.recipient = minerAddress ∧
      cb.amount = blockReward
        + sumGas (collectTxs limit ci.transactionPool 0 0).1
        + sumCg (collectTxs limit ci.transactionPool 0 0).1 := by
  refine ⟨_, rfl, rfl, rfl, ?_⟩
  show blockReward + (collectTxs limit ci.transactionPool 0 0).2.2 = _
  have := collectTxs_txgas_total limit ci.transactionPool 0 0
  omega

/-- Everything the SEND_BLOCK handler can touch, plus the REQUEST_BLOCK
messages it emits, one `(peer address, requested block number)` pair per open
peer; the request also carries `MY_ADDRESS` as the reply address, which is
constant and therefore omitted. -/
structure SendBlockResult where
  chainInfo : ChainInfo
  blockDB : List (String × Block)
  stateDB : List (String × Account)
  currentSyncBlock : Nat
  requests : List (String × Nat)
deriving Repr, DecidableEq

/-- The SEND_BLOCK handler of `server.js` (lines 197-236).  When the node is
syncing and the incoming block number equals `currentSyncBlock`, and either
no block has been synced yet (`latestSyncBlock` is null, the genesis
bootstrap) or `verifyBlock` passes, the handler advances the sync counter,
stores the block under its decimal block number, records the first synced
block, moves the head, applies the state transition, recomputes the
difficulty, and asks every open peer for the next height. -/
def sendBlockHandler
    (verify : Block → ChainInfo → List (String × Account) → Bool)
    (changeSt : Block → List (String × Account) → List (String × Account))
    (updDiff : Block → ChainInfo → List (String × Block) → Nat)
    (enableChainRequest : Bool)
    (openedAddrs : List String)
    (currentSyncBlock : Nat)
    (ci : ChainInfo)
    (blockDB : List (String × Block))
    (stateDB : List (String × Account))
    (block : Block) : SendBlockResult :=
  if enableChainRequest ∧ currentSyncBlock = block.blockNumber then
    if ci.latestSyncBlock.isNone || verify block ci stateDB then
      let sync2 := currentSyncBlock + 1
      let blockDB2 := dbPut blockDB (toString block.blockNumber) block
      let lsb2 := some (ci.latestSyncBlock.getD block)
      let stateDB2 := changeSt block stateDB
      let ci2 : ChainInfo :=
        { transactionPool := ci.transactionPool, latestBlock := block,
          latestSyncBlock := lsb2, difficulty := ci.difficulty }
      let difficulty2 := updDiff block ci2 blockDB2
      { chainInfo := { ci2 with difficulty := difficulty2 },
        blockDB := blockDB2, stateDB := stateDB2, currentSyncBlock := sync2,
        requests := openedAddrs.map (fun a => (a, sync2)) }
    else
      ⟨ci, blockDB, stateDB, currentSyncBlock, []⟩
  else
    ⟨ci, blockDB, stateDB, currentSyncBlock, []⟩

/-- Claim C5: while syncing, a SEND_BLOCK at exactly the expected height that
bootstraps the genesis or passes verification is persisted under its decimal
block number, bumps `currentSyncBlock` by one, becomes the head, has the
state transition applied and the difficulty recomputed, and triggers a
REQUEST_BLOCK for the next height to every open peer; a SEND_BLOCK at any
other height changes nothing. -/
theorem c5_send_block_sync
    (verify : Block → ChainInfo → List (String × Account) → Bool)
    (changeSt : Block → List (String × Account) → List (String × Account))
    (updDiff : Block → ChainInfo → List (String × Block) → Nat)
    (openedAddrs : List String)
    (currentSyncBlock : Nat)
    (ci : ChainInfo)
    (blockDB : List (String × Block))
    (stateDB : List (String × Account))
    (block : Block) :
    (currentSyncBlock = block.blockNumber →
      (ci.latestSyncBlock.isNone || verify block ci stateDB) = true →
      (sendBlockHandler verify changeSt updDiff true openedAddrs
          currentSyncBlock ci blockDB stateDB block =
        { chainInfo :=
            { transactionPool := ci.transactionPool, latestBlock := block,
              latestSyncBlock := some (ci.latestSyncBlock.getD block),
              difficulty := updDiff block
                { transactionPool := ci.transactionPool, latestBlock := block,
                  latestSyncBlock := some (ci.latestSyncBlock.getD block),
                  difficulty := ci.difficulty }
                (dbPut blockDB (toString block.blockNumber) block) },
          blockDB := dbPut blockDB (toString block.blockNumber) block,
          stateDB := changeSt block stateDB,
          currentSyncBlock := currentSyncBlock + 1,
          requests := openedAddrs.map (fun a => (a, currentSyncBlock + 1)) }) ∧
      dbLookup (dbPut blockDB (toString block.blockNumber) block)
        (toString block.blockNumber) = some block) ∧
    (currentSyncBlock ≠ block.blockNumber →
      sendBlockHandler verify changeSt updDiff true openedAddrs
          currentSyncBlock ci blockDB stateDB block =
        ⟨ci, blockDB, stateDB, currentSyncBlock, []⟩) := by
  constructor
  · intro hnum hver
    refine ⟨?_, dbLookup_dbPut _ _ _⟩
    simp [sendBlockHandler, hnum, hver]
  · intro hnum
    simp [sendBlockHandler, hnum]

/-- A block at height 1 used to exercise the sync handler. -/
def c5Block : Block :=
  { blockNumber := 1, timestamp := 5, transactions := [], difficulty := 1,
    parentHash := "g", nonce := 0, hash := "h1" }

/-- A fresh chain info that has not synced any block yet. -/
def c5ChainInfo : ChainInfo :=
  { transactionPool := [], latestBlock := c5Block, latestSyncBlock := none,
    difficulty := 1 }

theorem c5_send_block_sync_w :
    (sendBlockHandler (fun _ _ _ => false) (fun _ s => s) (fun _ _ _ => 3)
        true ["ws://peer"] 1 c5ChainInfo [] [] c5Block =
      { chainInfo :=
          { transactionPool := [], latestBlock := c5Block,
            latestSyncBlock := some c5Block, difficulty := 3 },
        blockDB := [("1", c5Block)], stateDB := [], currentSyncBlock := 2,
        requests := [("ws://peer", 2)] }) ∧
    (sendBlockHandler (fun _ _ _ => false) (fun _ s => s) (fun _ _ _ => 3)
        true ["ws://peer"] 2 c5ChainInfo [] [] c5Block =
      ⟨c5ChainInfo, [], [], 2, []⟩) := by
  have h := c5_send_block_sync (fun _ _ _ => false) (fun _ s => s)
    (fun _ _ _ => 3) ["ws://peer"] 1 c5ChainInfo [] [] c5Block
  have h2 := c5_send_block_sync (fun _ _ _ => false) (fun _ s => s)
    (fun _ _ _ => 3) ["ws://peer"] 2 c5ChainInfo [] [] c5Block
  exact ⟨(h.1 rfl rfl).1, h2.2 (by decide)⟩

/-- The sync-height initialization of `server.js` (lines 260-267): start from
1; if chain request is enabled and the block store is non-empty, take the
maximum of the stored keys (the keys are the decimal representations of the
block numbers, given here already parsed back to numbers, as by
`parseInt`).  `Math.max` over the spread list is a left fold of the binary
maximum; the fold starts from the first element, which for natural numbers
equals folding from 0. -/
def initialSyncBlock (blockNumbers : List Nat) : Nat :=
  if blockNumbers.isEmpty then 1 else blockNumbers.foldl Nat.max 0

theorem le_foldl_max (ks : List Nat) : ∀ a : Nat, a ≤ ks.foldl Nat.max a := by
  induction ks with
  | nil => intro a; simp
  | cons x xs ih =>
    intro a
    calc a ≤ Nat.max a x := Nat.le_max_left a x
    _ ≤ xs.foldl Nat.max (Nat.max a x) := ih (Nat.max a x)

theorem mem_le_foldl_max (ks : List Nat) :
    ∀ (a k : Nat), k ∈ ks → k ≤ ks.foldl Nat.max a := by
  induction ks with
  | nil => intro a k hk; cases hk
  | cons x xs ih =>
    intro a k hk
    rcases List.mem_cons.mp hk with hk | hk
    · subst hk
      calc k ≤ Nat.max a k := Nat.le_max_right a k
      _ ≤ xs.foldl Nat.max (Nat.max a k) := le_foldl_max xs _
    · exact ih (Nat.max a x) k hk

theorem foldl_max_mem (ks : List Nat) :
    ∀ a : Nat, ks ≠ [] → ks.foldl Nat.max a = a ∨ ks.foldl Nat.max a ∈ ks := by
  induction ks with
  | nil => intro a h; exact absurd rfl h
  | cons x xs ih =>
    intro a _
    have hmax : Nat.max a x = a ∨ Nat.max a x = x := by
      rcases Nat.le_total a x with h | h
      · exact Or.inr (Nat.max_eq_right h)
      · exact Or.inl (Nat.max_eq_left h)
    by_cases hxs : xs = []
    · subst hxs
      simp only [List.foldl]
      rcases hmax with h | h
      · exact Or.inl h
      · exact Or.inr (by rw [h]; exact List.mem_cons_self x [])
    · rcases ih (Nat.max a x) hxs with h | h
      · simp only [List.foldl]
        rcases hmax with h2 | h2
        · exact Or.inl (by rw [h, h2])
        · exact Or.inr (by rw [h, h2]; exact List.mem_cons_self x xs)
      · exact Or.inr (List.mem_cons_of_mem x (by simpa [List.foldl] using h))

/-- Claim C6 counterexample: a block store holding only the genesis block
under key 0 yields a sync height of 0, not the 1 that
`max(existing blockDB keys, 1)` prescribes. -/
theorem c6_genesis_only_counterexample :
    initialSyncBlock [0] ≠ 1 := by
  decide

/-- Claim C6 as amended: the sync height is 1 when the block store is empty;
for a non-empty store it is exactly the maximum stored block number (an
element of the key set that bounds every key), with no lower clamp at 1, so
a store holding only the genesis key 0 yields height 0. -/
theorem c6_sync_height (ks : List Nat) (h : ks ≠ []) :
    initialSyncBlock [] = 1 ∧
    initialSyncBlock ks ∈ ks ∧
    ∀ k ∈ ks, k ≤ initialSyncBlock ks := by
  refine ⟨rfl, ?_, ?_⟩
  · have hne : ks.isEmpty = false := by simpa [List.isEmpty_iff] using h
    rw [initialSyncBlock, hne]
    simp only [Bool.false_eq_true, if_false]
    rcases foldl_max_mem ks 0 h with h0 | hmem
    · rw [h0]
      rcases ks with _ | ⟨k, t⟩
      · exact absurd rfl h
      · have hk : k ≤ 0 := by
          have := mem_le_foldl_max (k :: t) 0 k (List.mem_cons_self k t)
          omega
        have : k = 0 := Nat.le_zero.mp hk
        subst this
        exact List.mem_cons_self 0 t
    · exact hmem
  · intro k hk
    have hne : ks.isEmpty = false := by simpa [List.isEmpty_iff] using h
    rw [initialSyncBlock, hne]
    simp only [Bool.false_eq_true, if_false]
    exact mem_le_foldl_max ks 0 k hk

theorem c6_sync_height_w :
    initialSyncBlock [] = 1 ∧
    initialSyncBlock [0] ∈ [0] ∧
    ∀ k ∈ [0], k ≤ initialSyncBlock [0] :=
  c6_sync_height [0] (by decide)

/-- Observable events of the RPC `sendTransaction` path, in the order the
code performs them: the HTTP reply, the gossip broadcast, and the
`addTransaction` call that validates and admits the transaction to the
pool. -/
inductive RpcEvent where
  | replySuccess : RpcEvent
  | replyError : RpcEvent
  | broadcastTx : Transaction → RpcEvent
  | addToPool : Transaction → RpcEvent
deriving Repr, DecidableEq

/-- The `sendTransaction` callback of `server.js` (lines 322-328): broadcast
the transaction to the open peers first, then hand it to `addTransaction`,
which validates it and admits it to the pool. -/
def sendTransactionTrace (tx : Transaction) : List RpcEvent :=
  [RpcEvent.broadcastTx tx, RpcEvent.addToPool tx]

/-- `RPCServer.handleSendTransaction` (rpc server, lines 842-856): reject a
request without a transaction object; otherwise reply success IMMEDIATELY
and only then invoke the transaction handler. -/
def handleSendTransaction (req : Option Transaction) : List RpcEvent :=
  match req with
  | none => [RpcEvent.replyError]
  | some tx => RpcEvent.replySuccess :: sendTransactionTrace tx

/-- Claim C7: for every transaction object, the success reply is the very
first event, no error reply ever occurs (so the reply does not depend on
validity), and both the reply and the peer broadcast happen strictly before
the validate-and-admit step. -/
theorem c7_reply_before_validation (tx : Transaction) :
    (handleSendTransaction (some tx)).head? = some RpcEvent.replySuccess ∧
    RpcEvent.replyError ∉ handleSendTransaction (some tx) ∧
    ∃ pre post,
      handleSendTransaction (some tx) = pre ++ RpcEvent.addToPool tx :: post ∧
      RpcEvent.replySuccess ∈ pre ∧
      RpcEvent.broadcastTx tx ∈ pre := by
  refine ⟨rfl, ?_, [RpcEvent.replySuccess, RpcEvent.broadcastTx tx], [],
    rfl, by simp, by simp⟩
  simp [handleSendTransaction, sendTransactionTrace]

/-- The variables relevant to the mining loop: the mutable
`ENABLE_CHAIN_REQUEST` of `startServer`, the snapshot of it passed to
`loopMine` as a parameter, the head block number, and the `length` and
`mining` locals of `loopMine`. -/
structure MineLoopState where
  ecrVar : Bool
  ecrParam : Bool
  latestBlockNumber : Nat
  length : Nat
  mining : Bool
deriving Repr, DecidableEq

/-- The two events that touch these variables: the NEW_BLOCK handler
accepting a remote block (which clears the mutable flag and moves the head),
and a tick of the `setInterval` loop in `loopMine`. -/
inductive MineEvent where
  | acceptRemoteBlock : MineEvent
  | tick : MineEvent
deriving Repr, DecidableEq

/-- One step; the boolean reports whether this step dispatched a candidate
block to the worker.  A tick runs `mine` only when `!ENABLE_CHAIN_REQUEST`,
reading the PARAMETER of `loopMine` (`server.js` lines 403-415), never the
mutable variable that the NEW_BLOCK handler clears (lines 117-119). -/
def mineStep : MineLoopState → MineEvent → MineLoopState × Bool
  | s, MineEvent.acceptRemoteBlock =>
    ({ s with ecrVar := false,
              latestBlockNumber := s.latestBlockNumber + 1 }, false)
  | s, MineEvent.tick =>
    if s.mining || (s.length != s.latestBlockNumber) then
      ({ s with mining := false, length := s.latestBlockNumber },
        !s.ecrParam)
    else (s, false)

/-- Whether any step of the event sequence dispatched a candidate block. -/
def mineRun : MineLoopState → List MineEvent → Bool
  | _, [] => false
  | s, e :: es => (mineStep s e).2 || mineRun (mineStep s e).1 es

/-- The state after running the whole event sequence. -/
def mineRunState : MineLoopState → List MineEvent → MineLoopState
  | s, [] => s
  | s, e :: es => mineRunState (mineStep s e).1 es

theorem mineStep_ecrParam (s : MineLoopState) (e : MineEvent) :
    ((mineStep s e).1).ecrParam = s.ecrParam := by
  cases e
  · rfl
  · simp only [mineStep]
    split
    · rfl
    · rfl

theorem mineRun_of_ecrParam :
    ∀ (evs : List MineEvent) (s : MineLoopState), s.ecrParam = true →
      mineRun s evs = false ∧ (mineRunState s evs).ecrParam = true := by
  intro evs
  induction evs with
  | nil => intro s h; exact ⟨rfl, h⟩
  | cons e es ih =>
    intro s h
    have hp : ((mineStep s e).1).ecrParam = true := by
      rw [mineStep_ecrParam]; exact h
    have hrec := ih (mineStep s e).1 hp
    have hd : (mineStep s e).2 = false := by
      cases e
      · rfl
      · simp only [mineStep]
        split
        · simp [h]
        · rfl
    simp [mineRun, mineRunState, hd, hrec.1, hrec.2]

/-- Claim C8: a node started with both `ENABLE_CHAIN_REQUEST` and
`ENABLE_MINING` true never dispatches a candidate block to the worker, under
any interleaving of accepted remote blocks and loop ticks, because
`loopMine` keeps reading its parameter (still true) while only the mutable
variable is ever cleared. -/
theorem c8_no_mining_dispatch (n : Nat) (evs : List MineEvent) :
    mineRun ⟨true, true, n, n, true⟩ evs = false ∧
    (mineRunState ⟨true, true, n, n, true⟩ evs).ecrParam = true :=
  mineRun_of_ecrParam evs ⟨true, true, n, n, true⟩ rfl

/-- An entry of the `opened` peer table; the socket object is stood for by
an identifier. -/
structure Peer where
  address : String
  socketId : Nat
deriving Repr, DecidableEq

/-- The stored block-store keys parsed back to numbers, as by
`keys().all().map(parseInt)` (every key the node writes is the decimal
representation of a block number). -/
def keyNumbers (db : List (String × Block)) : List Nat :=
  db.map (fun e => e.1.toNat?.getD 0)

/-- `Math.max(...keys)`: none stands for the minus infinity produced on an
empty store. -/
def currentBlockNumberOf (db : List (String × Block)) : Option Nat :=
  match keyNumbers db with
  | [] => none
  | k :: t => some (t.foldl Nat.max k)

/-- The REQUEST_BLOCK handler of `server.js` (lines 178-195).  When the node
is not syncing it FIRST looks the requesting address up in the `opened`
table and dereferences `.socket` on the result; when the address is absent
the lookup yields `undefined` and the dereference throws, embedded as
`Except.error`.  Only afterwards does it compute the current height and
range-check the requested number; an in-range request is answered with a
SEND_BLOCK on the socket found. -/
def requestBlockHandler (enableChainRequest : Bool) (opened : List Peer)
    (blockDB : List (String × Block)) (blockNumber : Int)
    (requestAddress : String) : Except Unit (Option (Nat × Block)) :=
  if enableChainRequest then Except.ok none
  else
    match opened.find? (fun node => node.address == requestAddress) with
    | none => Except.error ()
    | some node =>
      match currentBlockNumberOf blockDB with
      | none => Except.ok none
      | some currentBlockNumber =>
        if 0 < blockNumber ∧ blockNumber ≤ (currentBlockNumber : Int) then
          match dbLookup blockDB (toString blockNumber) with
          | some b => Except.ok (some (node.socketId, b))
          | none => Except.error ()
        else Except.ok none

/-- Claim C9: while not syncing, a REQUEST_BLOCK whose requesting address
matches no open peer makes the handler throw before the range check runs
(the outcome is the error for EVERY requested block number, in or out of
range), and no SEND_BLOCK is produced. -/
theorem c9_unknown_peer_throws (opened : List Peer) (requestAddress : String)
    (h : ∀ p ∈ opened, p.address ≠ requestAddress) :
    ∀ (blockDB : List (String × Block)) (blockNumber : Int),
      requestBlockHandler false opened blockDB blockNumber requestAddress =
        Except.error () := by
  intro db bn
  have hf : opened.find? (fun node => node.address == requestAddress) = none := by
    rw [List.find?_eq_none]
    intro p hp
    simpa using h p hp
  simp [requestBlockHandler, hf]

theorem c9_unknown_peer_throws_w :
    requestBlockHandler false [⟨"ws://a", 0⟩] [] 5 "ws://b" =
      Except.error () :=
  c9_unknown_peer_throws [⟨"ws://a", 0⟩] "ws://b" (by decide) [] 5

/-- The two pool operations the gossip path performs: admission through the
CREATE_TRANSACTION handler (only reachable when the node is not syncing) and
the re-validation filter run on block acceptance, whose predicate is
abstract because only its filtering shape matters. -/
inductive PoolOp where
  | createTx : (Transaction → Bool) → List (String × Account) →
      Transaction → PoolOp
  | revalidate : (Transaction → Bool) → PoolOp

/-- Apply one gossip pool operation. -/
def applyPoolOp (pool : List Transaction) : PoolOp → List Transaction
  | PoolOp.createTx isValid stateDB tx =>
    (createTransactionHandler isValid false stateDB pool tx).pool
  | PoolOp.revalidate keep => pool.filter keep

/-- Apply a sequence of gossip pool operations. -/
def runPoolOps : List Transaction → List PoolOp → List Transaction
  | pool, [] => pool
  | pool, op :: ops => runPoolOps (applyPoolOp pool op) ops

/-- No two distinct pool entries share both sender and timestamp. -/
def NoDupSenderTs (pool : List Transaction) : Prop :=
  pool.Pairwise (fun a b => a.sender = b.sender → a.timestamp ≠ b.timestamp)

theorem createTx_pool_cases (isValid : Transaction → Bool)
    (enableChainRequest : Bool) (stateDB : List (String × Account))
    (pool : List Transaction) (tx : Transaction) :
    (createTransactionHandler isValid enableChainRequest stateDB pool tx).pool
        = pool ∨
    ((createTransactionHandler isValid enableChainRequest stateDB pool
        tx).pool = pool ++ [tx] ∧
      ((pool.filter (fun t => t.sender == tx.sender)).any
        (fun t => t.timestamp == tx.timestamp)) = false) := by
  unfold createTransactionHandler
  split
  · exact Or.inl rfl
  · split
    · exact Or.inl rfl
    · split
      · exact Or.inl rfl
      · dsimp only
        split
        · rename_i hcond
          exact Or.inr ⟨rfl, hcond.2⟩
        · exact Or.inl rfl

theorem noDup_applyPoolOp (pool : List Transaction) (op : PoolOp)
    (h : NoDupSenderTs pool) : NoDupSenderTs (applyPoolOp pool op) := by
  cases op with
  | revalidate keep =>
    exact List.Pairwise.sublist (List.filter_sublist pool) h
  | createTx isValid stateDB tx =>
    have hred : applyPoolOp pool (PoolOp.createTx isValid stateDB tx) =
        (createTransactionHandler isValid false stateDB pool tx).pool := rfl
    rw [hred]
    rcases createTx_pool_cases isValid false stateDB pool tx with hc | ⟨hc, hg⟩
    · rw [hc]; exact h
    · rw [hc]
      rw [NoDupSenderTs, List.pairwise_append]
      refine ⟨h, List.pairwise_singleton _ _, ?_⟩
      intro a ha b hb hsender
      have hb2 : b = tx := by simpa using hb
      rw [hb2] at hsender ⊢
      intro hts
      have hmem : a ∈ pool.filter (fun t => t.sender == tx.sender) := by
        rw [List.mem_filter]
        exact ⟨ha, by simpa using hsender⟩
      have := (List.any_eq_false.mp hg) a hmem
      simp only [beq_iff_eq] at this
      exact this hts

/-- Claim C10: starting from the empty pool, every sequence of gossip pool
operations keeps the pool free of same-sender same-timestamp duplicates;
each single operation preserves that invariant; and the CREATE_TRANSACTION
handler leaves the pool unchanged whenever some pooled transaction of the
same sender already carries the incoming timestamp. -/
theorem c10_pool_timestamp_invariant :
    (∀ ops : List PoolOp, NoDupSenderTs (runPoolOps [] ops)) ∧
    (∀ (pool : List Transaction) (op : PoolOp),
      NoDupSenderTs pool → NoDupSenderTs (applyPoolOp pool op)) ∧
    (∀ (isValid : Transaction → Bool) (stateDB : List (String × Account))
        (pool : List Transaction) (tx : Transaction),
      (∃ a ∈ pool, a.sender = tx.sender ∧ a.timestamp = tx.timestamp) →
      (createTransactionHandler isValid false stateDB pool tx).pool = pool) := by
  have hrun : ∀ (ops : List PoolOp) (pool : List Transaction),
      NoDupSenderTs pool → NoDupSenderTs (runPoolOps pool ops) := by
    intro ops
    induction ops with
    | nil => intro pool h; exact h
    | cons op ops ih =>
      intro pool h
      exact ih (applyPoolOp pool op) (noDup_applyPoolOp pool op h)
  refine ⟨fun ops => hrun ops [] List.Pairwise.nil, noDup_applyPoolOp, ?_⟩
  intro isValid stateDB pool tx ⟨a, ha, hsender, hts⟩
  rcases createTx_pool_cases isValid false stateDB pool tx with hc | ⟨_, hg⟩
  · exact hc
  · exfalso
    have hmem : a ∈ pool.filter (fun t => t.sender == tx.sender) := by
      rw [List.mem_filter]
      exact ⟨ha, by simpa using hsender⟩
    have := (List.any_eq_false.mp hg) a hmem
    simp only [beq_iff_eq] at this
    exact this hts

/-- A transaction used by the invariant witness. -/
def c10Tx : Transaction :=
  { recipient := "r", amount := 0, gas := 0, contractGas := none,
    timestamp := 3, sender := "s" }

theorem c10_pool_timestamp_invariant_w :
    NoDupSenderTs (runPoolOps [] []) ∧
    NoDupSenderTs (applyPoolOp [] (PoolOp.revalidate (fun _ => true))) ∧
    (createTransactionHandler (fun _ => true) false [] [c10Tx] c10Tx).pool =
      [c10Tx] :=
  ⟨c10_pool_timestamp_invariant.1 [],
   c10_pool_timestamp_invariant.2.1 [] (PoolOp.revalidate (fun _ => true))
     List.Pairwise.nil,
   c10_pool_timestamp_invariant.2.2 (fun _ => true) [] [c10Tx] c10Tx
     ⟨c10Tx, List.mem_cons_self c10Tx [], rfl, rfl⟩⟩

end EKHBC
